import Mathlib

/-!
Verification development for the RMA repository (segmented compressive-memory
attention demo).  The Rust sources under `src/` are shallowly embedded below:
`f32` values are modelled as rationals (`ℚ`) for the linear parts of the
pipeline and as reals (`ℝ`) where the transcendental sigmoid is involved;
`usize` is modelled as `Nat`; mutable state is passed explicitly.
-/

namespace RMA

/-- Embedding of the struct `InfiniAttentionGpu` from
`src/infini_attention_gpu.rs`.  The `gpu : Arc<GpuContext>` device handle is
omitted (it carries no numeric data); each per-head GPU buffer is modelled by
the list of values it holds.  `memory_matrices` holds, per head, a
`d_key * d_value` row-major matrix; `memory_z` holds, per head, a `d_key`-long
normalizer; `gate` holds one raw gating scalar per head. -/
structure InfiniAttentionGpu where
  num_heads : Nat
  d_key : Nat
  d_value : Nat
  d_model : Nat
  memory_matrices : List (List ℚ)
  memory_z : List (List ℚ)
  gate : List ℚ
  deriving DecidableEq

/-- Embedding of `InfiniAttentionGpu::new` (`src/infini_attention_gpu.rs`
lines 28-62).  The constructor loops `num_heads` times, each iteration pushing
a zero-filled `d_key * d_value` matrix buffer, a zero-filled `d_key` normalizer
buffer and a raw gate parameter of `0.0`; the loop of pushes of a constant is
rendered as `List.replicate`. -/
def InfiniAttentionGpu.new (num_heads d_key d_value d_model : Nat) :
    InfiniAttentionGpu :=
  { num_heads := num_heads
    d_key := d_key
    d_value := d_value
    d_model := d_model
    memory_matrices := List.replicate num_heads (List.replicate (d_key * d_value) 0)
    memory_z := List.replicate num_heads (List.replicate d_key 0)
    gate := List.replicate num_heads 0 }

/-- Embedding of the per-head gating value computed on
`src/infini_attention_gpu.rs` line 127:
`let gate_val = 1.0 / (1.0 + (-self.gate[head_idx]).exp());`.
The `f32` arithmetic is modelled over the reals. -/
noncomputable def gate_val (rawGateParam : ℝ) : ℝ :=
  1 / (1 + Real.exp (-rawGateParam))

set_option linter.unusedVariables false in
/-- Embedding of `InfiniAttentionGpu::forward`
(`src/infini_attention_gpu.rs` lines 68-160).  The function uploads the
segment, allocates `q_buf`, `k_buf`, `v_buf`, `local_context_buf`,
`memory_context_buf` and `final_output_buf`, and loops over the heads; every
kernel dispatch in the body (QKV split, local attention, memory retrieval,
gated combine, memory update) is only a comment in the source, so no submitted
work ever writes any buffer and the per-head loop merely computes an unused
local gating value.  WebGPU storage buffers created without
`mapped_at_creation` are zero-initialized, so downloading the never-written
`final_output_buf` of `n * d_model` elements yields zeros.  The per-head
memory buffers referenced by `self` are never written, so the state is
returned unchanged; the only error path in the source is a device-transfer
failure, which the numeric model does not exercise. -/
def InfiniAttentionGpu.forward (self : InfiniAttentionGpu)
    (x_seg_embeddings : List ℚ) (n : Nat) : List ℚ × InfiniAttentionGpu :=
  let x_seg_buf := x_seg_embeddings
  let chunk_size := self.d_model / 3
  let q_buf := List.replicate (n * chunk_size) (0 : ℚ)
  let k_buf := List.replicate (n * chunk_size) (0 : ℚ)
  let v_buf := List.replicate (n * chunk_size) (0 : ℚ)
  let local_context_buf := List.replicate (n * chunk_size) (0 : ℚ)
  let memory_context_buf := List.replicate (n * chunk_size) (0 : ℚ)
  -- the head loop only computes the (unused) `gate_val`; no kernels run
  let final_output_buf := List.replicate (n * self.d_model) (0 : ℚ)
  (final_output_buf, self)

/-- Embedding of `process_segment_cpu` (`src/main.rs` lines 171-187).  The
embedding table is modelled as a function of (row, column); the source indexes
`embedding_table[[tok_id % rows, c]]` where `rows` is the table's first axis
length (`vocab_rows`).  The double loop filling the row-major `x_seg` vector is
rendered as a flat map of rows; the function returns `x_seg` unchanged (the
"some CPU-based attention" comment in the source performs no computation). -/
def process_segment_cpu (tokens : List Nat) (embedding_table : Nat → Nat → ℚ)
    (vocab_rows d_model : Nat) : List ℚ :=
  tokens.flatMap (fun tok_id =>
    (List.range d_model).map (fun c => embedding_table (tok_id % vocab_rows) c))

/-- Embedding of `process_segment_gpu` (`src/main.rs` lines 148-169): build the
`n * d_model` embedded segment exactly as the CPU path does, then call
`InfiniAttentionGpu::forward` on it. -/
def process_segment_gpu (tokens : List Nat) (embedding_table : Nat → Nat → ℚ)
    (vocab_rows : Nat) (infini : InfiniAttentionGpu) :
    List ℚ × InfiniAttentionGpu :=
  let x_seg := tokens.flatMap (fun tok_id =>
    (List.range infini.d_model).map (fun c =>
      embedding_table (tok_id % vocab_rows) c))
  infini.forward x_seg tokens.length

/-- Embedding of the configuration check performed by `main`
(`src/main.rs` line 73).  The only validation in the program is the assertion
`assert!(d_model % 3 == 0, "embed_dim must be multiple of 3")`, executed before
`InfiniAttentionGpu::new` allocates any buffer; the `usize` size parameters
(`segment_size`, `embed_dim`, `vocab_size`, `heads`) are taken from `clap`
defaults or the command line and are never checked for zero. -/
structure Args where
  segment_size : Nat
  embed_dim : Nat
  vocab_size : Nat
  heads : Nat
  deriving DecidableEq

/-- `true` iff `main` passes its configuration assertion for these arguments
(`src/main.rs` line 73); `false` means the run aborts before building the
engine. -/
def configAccepted (args : Args) : Bool :=
  args.embed_dim % 3 == 0

/-- The mutable state of `main`'s streaming loop (`src/main.rs` lines 84-87):
the pending token buffer, the running sum over `d_model` dimensions, and the
count of processed tokens. -/
structure LoopState where
  token_buffer : List Nat
  global_sum : List ℚ
  global_count : Nat
  deriving DecidableEq

/-- Embedding of the accumulation loop of `main` (`src/main.rs` lines
106-111 and 126-131): for every row of the segment output and every column
`c < d_model`, add `output[row * d_model + c]` into `global_sum[c]`; the row
loop increments `global_count` once per row, adding `n` in total. -/
def accumulate (global_sum output : List ℚ) (n d_model : Nat) : List ℚ :=
  (List.range d_model).map (fun c =>
    global_sum.getD c 0 + ∑ row in Finset.range n, output.getD (row * d_model + c) 0)

/-- Embedding of the body of the token loop of `main`
(`src/main.rs` lines 93-114), CPU path: push one token; when the buffer has
reached `segment_size` tokens, process the first `segment_size` of them with
`process_segment_cpu`, accumulate the output and the row count, and drain the
consumed prefix. -/
def pushToken (seg_size d_model : Nat) (embedding_table : Nat → Nat → ℚ)
    (vocab_rows : Nat) (st : LoopState) (t : Nat) : LoopState :=
  let buf := st.token_buffer ++ [t]
  if seg_size ≤ buf.length then
    let seg := buf.take seg_size
    let output := process_segment_cpu seg embedding_table vocab_rows d_model
    { token_buffer := buf.drop seg_size
      global_sum := accumulate st.global_sum output seg_size d_model
      global_count := st.global_count + seg_size }
  else
    { st with token_buffer := buf }

/-- The initial loop state of `main` (`src/main.rs` lines 85-87): empty token
buffer, `global_sum = Array1::zeros(d_model)`, zero count. -/
def initState (d_model : Nat) : LoopState :=
  { token_buffer := []
    global_sum := List.replicate d_model 0
    global_count := 0 }

/-- Embedding of `main`'s leftover flush (`src/main.rs` lines 118-132), CPU
path: if a non-empty remainder is left in the token buffer at end-of-stream,
dispatch it through the identical `process_segment_cpu` pipeline with
`n_left = seg.len()` and accumulate its output and row count. -/
def flushLeftover (d_model : Nat) (embedding_table : Nat → Nat → ℚ)
    (vocab_rows : Nat) (st : LoopState) : LoopState :=
  if st.token_buffer = [] then st
  else
    { token_buffer := st.token_buffer
      global_sum := accumulate st.global_sum
        (process_segment_cpu st.token_buffer embedding_table vocab_rows d_model)
        st.token_buffer.length d_model
      global_count := st.global_count + st.token_buffer.length }

/-- Embedding of `main`'s streaming phase plus its leftover flush
(`src/main.rs` lines 89-132), CPU path: fold the token stream through the
segment loop, then flush any non-empty remainder. -/
def runStream (seg_size d_model : Nat) (embedding_table : Nat → Nat → ℚ)
    (vocab_rows : Nat) (tokens : List Nat) : LoopState :=
  flushLeftover d_model embedding_table vocab_rows
    (tokens.foldl (pushToken seg_size d_model embedding_table vocab_rows)
      (initState d_model))

/-- Embedding of `main`'s final report (`src/main.rs` lines 134-143): if at
least one token was processed, the average `global_sum / global_count` is
produced; otherwise the explicit "No tokens processed." indicator, modelled as
`none`, and no division is performed. -/
def mainResult (seg_size d_model : Nat) (embedding_table : Nat → Nat → ℚ)
    (vocab_rows : Nat) (tokens : List Nat) : Option (List ℚ) :=
  if 0 < (runStream seg_size d_model embedding_table vocab_rows tokens).global_count then
    some ((runStream seg_size d_model embedding_table vocab_rows tokens).global_sum.map
      (fun x =>
        x / ((runStream seg_size d_model embedding_table vocab_rows
            tokens).global_count : ℚ)))
  else
    none

/-- Modelled from the spec: the element-wise non-negative feature map `σ` of
§4.5/§4.6 ("e.g. rectification, chosen deterministically and fixed at compile
time").  The memory retrieval, update and combine kernels are only scaffolded
in `src/infini_attention_gpu.rs` (comments at lines 129-137), so the feature
map is absent from the source; rectification is taken as the default. -/
def sigmaMap (x : ℚ) : ℚ := max x 0

/-- Modelled from the spec: the persistent `HeadMemoryState` of §3 — a
`d_key × d_value` memory matrix `M` (as a function of row and column) and a
`d_key`-length normalizer `z`.  The corresponding GPU buffers exist in the
source (`memory_matrices`, `memory_z`) but the kernels that read and write
them are missing, so their numeric semantics is taken from §4.5-§4.6. -/
structure HeadMemory where
  M : Nat → Nat → ℚ
  z : Nat → ℚ

/-- The all-zero head memory, matching the zero initialization performed by
`InfiniAttentionGpu::new` (`src/infini_attention_gpu.rs` lines 40-47). -/
def zeroHeadMemory : HeadMemory :=
  { M := fun _ _ => 0, z := fun _ => 0 }

/-- Modelled from the spec: a segment's per-head tensors for the memory stages
of §4.5-§4.6 — `n` rows of query, key and value, each of width `d_key`
(= `d_value`), as functions of (row, feature). -/
structure Segment where
  n : Nat
  Q : Nat → Nat → ℚ
  K : Nat → Nat → ℚ
  V : Nat → Nat → ℚ

/-- Modelled from the spec: the Memory Retrieval Stage of §4.5, absent from
the source (comment stub at `src/infini_attention_gpu.rs` line 130):
`MemoryContext[i] = (sig(Q[i]) · M) / max(sig(Q[i]) · z, eps)`, here given
entry-wise at row `i`, output feature `j`, with feature map `sig`. -/
def memoryRetrieval (sig : ℚ → ℚ) (d_key : Nat) (eps : ℚ) (st : HeadMemory)
    (Q : Nat → Nat → ℚ) (i j : Nat) : ℚ :=
  (∑ a in Finset.range d_key, sig (Q i a) * st.M a j) /
    max (∑ a in Finset.range d_key, sig (Q i a) * st.z a) eps

/-- Modelled from the spec: the Memory Update Stage of §4.6, absent from the
source (comment stub at `src/infini_attention_gpu.rs` lines 132-137):
`M ← M + sig(K)ᵗ · V` and `z ← z + Σ_i sig(K[i])`. -/
def memoryUpdate (sig : ℚ → ℚ) (seg : Segment) (st : HeadMemory) : HeadMemory :=
  { M := fun a j => st.M a j + ∑ i in Finset.range seg.n, sig (seg.K i a) * seg.V i j
    z := fun a => st.z a + ∑ i in Finset.range seg.n, sig (seg.K i a) }

/-- Modelled from the spec: the memory-read half of one segment pass — the
retrieval output of a segment, computed from a given head memory state
(§4.5). -/
def segmentOutput (sig : ℚ → ℚ) (d_key : Nat) (eps : ℚ) (st : HeadMemory)
    (seg : Segment) : Nat → Nat → ℚ :=
  fun i j => memoryRetrieval sig d_key eps st seg.Q i j

/-- Modelled from the spec: one full segment pass of the memory stages, §4.5
then §4.6 in that order — read from the current state, then update it. -/
def processSegment (sig : ℚ → ℚ) (d_key : Nat) (eps : ℚ) (st : HeadMemory)
    (seg : Segment) : (Nat → Nat → ℚ) × HeadMemory :=
  (segmentOutput sig d_key eps st seg, memoryUpdate sig seg st)

/-- Modelled from the spec: the head memory state after processing a list of
segments in order (§4.8, §5: strictly sequential, state carried forward). -/
def stateAfter (sig : ℚ → ℚ) (d_key : Nat) (eps : ℚ) (st : HeadMemory) :
    List Segment → HeadMemory
  | [] => st
  | seg :: rest => stateAfter sig d_key eps (processSegment sig d_key eps st seg).2 rest

/-- Modelled from the spec: the sequence of per-segment retrieval outputs
produced while processing a list of segments in order, each read using the
state as it stood before that segment's update. -/
def outputsFrom (sig : ℚ → ℚ) (d_key : Nat) (eps : ℚ) (st : HeadMemory) :
    List Segment → List (Nat → Nat → ℚ)
  | [] => []
  | seg :: rest =>
      (processSegment sig d_key eps st seg).1 ::
        outputsFrom sig d_key eps (processSegment sig d_key eps st seg).2 rest

/-! ## Theorems -/

/-- C4: for every head count (and every shape), `InfiniAttentionGpu::new`
initializes every head's `d_key * d_value` memory matrix and `d_key`-length
normalizer to all zeros and every raw gate parameter to zero, and the gate
value computed from the initial raw gate parameter of zero equals exactly
`0.5`. -/
theorem new_initializes_zero_memory_and_gate_half
    (num_heads d_key d_value d_model : Nat) :
    (InfiniAttentionGpu.new num_heads d_key d_value d_model).memory_matrices
        = List.replicate num_heads (List.replicate (d_key * d_value) 0)
    ∧ (InfiniAttentionGpu.new num_heads d_key d_value d_model).memory_z
        = List.replicate num_heads (List.replicate d_key 0)
    ∧ (InfiniAttentionGpu.new num_heads d_key d_value d_model).gate
        = List.replicate num_heads 0
    ∧ gate_val 0 = 1 / 2 := by
  refine ⟨rfl, rfl, rfl, ?_⟩
  unfold gate_val
  rw [neg_zero, Real.exp_zero]
  norm_num

/-- C5: for every (finite, real-modelled) raw gate parameter, the gate
`sigmoid(rawGateParam) = 1 / (1 + exp(-rawGateParam))` lies strictly inside
the open interval `(0, 1)`; the boundary values `0` and `1` are never
produced. -/
theorem gate_val_mem_open_unit_interval (rawGateParam : ℝ) :
    0 < gate_val rawGateParam ∧ gate_val rawGateParam < 1 := by
  have hexp : 0 < Real.exp (-rawGateParam) := Real.exp_pos _
  have hden : (0 : ℝ) < 1 + Real.exp (-rawGateParam) := by linarith
  constructor
  · exact div_pos one_pos hden
  · rw [gate_val, div_lt_one hden]
    linarith

/-- C9: `InfiniAttentionGpu::forward` leaves the per-head memory matrices,
normalizer vectors and gate parameters unchanged — the engine state after the
call equals the state before it (no submitted kernel writes any persistent
buffer). -/
theorem forward_preserves_head_state (self : InfiniAttentionGpu)
    (x_seg_embeddings : List ℚ) (n : Nat) :
    (self.forward x_seg_embeddings n).2.memory_matrices = self.memory_matrices
    ∧ (self.forward x_seg_embeddings n).2.memory_z = self.memory_z
    ∧ (self.forward x_seg_embeddings n).2.gate = self.gate
    ∧ (self.forward x_seg_embeddings n).2 = self :=
  ⟨rfl, rfl, rfl, rfl⟩

/-- C2 (failing-input evaluation): on the single-token stream `[0]` with an
all-ones `1 × 3` embedding table and a one-head engine (`d_model = 3`,
`d_key = d_value = 1`), the CPU reference path returns the embedded segment
`[1, 1, 1]` while the device path returns `[0, 0, 0]` (the final output buffer
is allocated but never written by any kernel), so the two paths are not
numerically equivalent on identical input. -/
theorem cpu_device_paths_diverge :
    process_segment_cpu [0] (fun _ _ => (1 : ℚ)) 1 3
      ≠ (process_segment_gpu [0] (fun _ _ => (1 : ℚ)) 1
          (InfiniAttentionGpu.new 1 1 1 3)).1 := by
  decide

/-- The C7 claim as stated: whenever `d_model` is not divisible by 3 or any
size parameter is zero (`usize` parameters cannot be negative), the program
fails its configuration validation. -/
def configClaim : Prop :=
  ∀ args : Args,
    (¬ args.embed_dim % 3 = 0 ∨ args.segment_size = 0 ∨ args.embed_dim = 0
        ∨ args.vocab_size = 0 ∨ args.heads = 0) →
      configAccepted args = false

/-- C7 (counterexample): the configuration with `segment_size = 16`,
`embed_dim = 12`, `vocab_size = 0`, `heads = 1` has a zero size parameter,
yet `main`'s validation accepts it (the only check is `embed_dim % 3 == 0`),
refuting the claim as stated. -/
theorem configClaim_false : ¬ configClaim := by
  intro h
  have := h (Args.mk 16 12 0 1) (by decide)
  simp [configAccepted] at this

/-- C7 (amended): `main`'s configuration validation rejects a configuration
exactly when `embed_dim` (= `d_model`) is not divisible by 3; that assertion
runs before `InfiniAttentionGpu::new` allocates any buffer, and zero size
parameters are not checked. -/
theorem configAccepted_iff (args : Args) :
    configAccepted args = false ↔ ¬ args.embed_dim % 3 = 0 := by
  simp [configAccepted]

/-- Concrete instantiation of `configAccepted_iff`: a configuration whose
`embed_dim` is 13 is rejected. -/
theorem configAccepted_iff_witness :
    configAccepted (Args.mk 16 13 10000 1) = false :=
  (configAccepted_iff (Args.mk 16 13 10000 1)).mpr (by decide)

/-- Index formula for a row-major embedded segment: if row `i` of the token
list holds `t` and `c < d_model`, then entry `i * d_model + c` of the
flattened embedding is the table entry for `(t % vocab_rows, c)`. -/
lemma flatMap_embed_get (f : Nat → Nat → ℚ) (d_model : Nat) :
    ∀ (ts : List Nat) (i c t : Nat), ts.get? i = some t → c < d_model →
      (ts.flatMap (fun tok_id =>
          (List.range d_model).map (fun c => f tok_id c))).get? (i * d_model + c)
        = some (f t c) := by
  intro ts
  induction ts with
  | nil => intro i c t h _; simp at h
  | cons a ts ih =>
    intro i c t h hc
    rw [List.flatMap_cons]
    cases i with
    | zero =>
      simp only [List.get?_cons_zero, Option.some.injEq] at h
      subst h
      rw [Nat.zero_mul, Nat.zero_add,
        List.get?_append (by simpa using hc)]
      rw [List.get?_map, List.get?_range hc]
      rfl
    | succ i =>
      simp only [List.get?_cons_succ] at h
      have hlen : ((List.range d_model).map (fun c => f a c)).length = d_model := by
        simp
      rw [List.get?_append_right (by simp [Nat.succ_mul]; omega)]
      rw [hlen]
      have harith : (i + 1) * d_model + c - d_model = i * d_model + c := by
        rw [Nat.succ_mul]; omega
      rw [harith]
      exact ih i c t h hc

/-- C10: the CPU fallback path returns exactly the embedded segment: for every
row `i` holding token `t` and every column `c < d_model`, the output entry at
flat position `i * d_model + c` equals `embedding_table[t % vocab_rows, c]`;
no attention, memory, or gating computation is applied. -/
theorem process_segment_cpu_is_embedding (tokens : List Nat)
    (embedding_table : Nat → Nat → ℚ) (vocab_rows d_model i c t : Nat)
    (ht : tokens.get? i = some t) (hc : c < d_model) :
    (process_segment_cpu tokens embedding_table vocab_rows d_model).get?
        (i * d_model + c)
      = some (embedding_table (t % vocab_rows) c) := by
  unfold process_segment_cpu
  exact flatMap_embed_get (fun tok_id c => embedding_table (tok_id % vocab_rows) c)
    d_model tokens i c t ht hc

/-- Concrete instantiation of `process_segment_cpu_is_embedding`: token
stream `[7]`, a `3 × 2` table, row 0, column 1. -/
theorem process_segment_cpu_is_embedding_witness :
    ([7] : List Nat).get? 0 = some 7 ∧ 1 < 2 ∧
      (process_segment_cpu [7] (fun r c => (r : ℚ) * 10 + c) 3 2).get? (0 * 2 + 1)
        = some (((7 % 3 : Nat) : ℚ) * 10 + ((1 : Nat) : ℚ)) :=
  ⟨rfl, by decide, by
    exact process_segment_cpu_is_embedding [7] (fun r c => (r : ℚ) * 10 + c) 3 2 0 1 7
      rfl (by decide)⟩

/-- One push preserves the quantity `global_count + token_buffer.length`,
incremented by the one token pushed. -/
lemma pushToken_count_buffer (seg_size d_model : Nat)
    (embedding_table : Nat → Nat → ℚ) (vocab_rows : Nat) (st : LoopState)
    (t : Nat) :
    (pushToken seg_size d_model embedding_table vocab_rows st t).global_count
      + (pushToken seg_size d_model embedding_table vocab_rows st t).token_buffer.length
    = st.global_count + st.token_buffer.length + 1 := by
  unfold pushToken
  by_cases hle : seg_size ≤ (st.token_buffer ++ [t]).length
  · rw [if_pos hle]
    show st.global_count + seg_size
        + ((st.token_buffer ++ [t]).drop seg_size).length
      = st.global_count + st.token_buffer.length + 1
    rw [List.length_drop]
    simp only [List.length_append, List.length_singleton] at hle ⊢
    omega
  · rw [if_neg hle]
    show st.global_count + (st.token_buffer ++ [t]).length
      = st.global_count + st.token_buffer.length + 1
    simp only [List.length_append, List.length_singleton]
    omega

/-- Over the whole fold, `global_count + token_buffer.length` grows by exactly
the number of tokens pushed. -/
lemma foldl_count_buffer (seg_size d_model : Nat)
    (embedding_table : Nat → Nat → ℚ) (vocab_rows : Nat) :
    ∀ (tokens : List Nat) (st : LoopState),
      (tokens.foldl (pushToken seg_size d_model embedding_table vocab_rows)
          st).global_count
        + (tokens.foldl (pushToken seg_size d_model embedding_table vocab_rows)
            st).token_buffer.length
      = st.global_count + st.token_buffer.length + tokens.length := by
  intro tokens
  induction tokens with
  | nil => intro st; simp
  | cons t ts ih =>
    intro st
    rw [List.foldl_cons]
    have h1 := ih (pushToken seg_size d_model embedding_table vocab_rows st t)
    have h2 := pushToken_count_buffer seg_size d_model embedding_table vocab_rows st t
    simp only [List.length_cons]
    omega

/-- `accumulate` always returns a vector of `d_model` entries. -/
lemma accumulate_length (global_sum output : List ℚ) (n d_model : Nat) :
    (accumulate global_sum output n d_model).length = d_model := by
  simp [accumulate]

/-- The running sum keeps its `d_model` length across one push. -/
lemma pushToken_sum_length (seg_size d_model : Nat)
    (embedding_table : Nat → Nat → ℚ) (vocab_rows : Nat) (st : LoopState)
    (t : Nat) (h : st.global_sum.length = d_model) :
    (pushToken seg_size d_model embedding_table vocab_rows st t).global_sum.length
      = d_model := by
  unfold pushToken
  by_cases hle : seg_size ≤ (st.token_buffer ++ [t]).length
  · rw [if_pos hle]
    exact accumulate_length _ _ _ _
  · rw [if_neg hle]
    exact h

/-- The running sum keeps its `d_model` length across the whole fold. -/
lemma foldl_sum_length (seg_size d_model : Nat)
    (embedding_table : Nat → Nat → ℚ) (vocab_rows : Nat) :
    ∀ (tokens : List Nat) (st : LoopState), st.global_sum.length = d_model →
      (tokens.foldl (pushToken seg_size d_model embedding_table vocab_rows)
          st).global_sum.length = d_model := by
  intro tokens
  induction tokens with
  | nil => intro st h; simpa using h
  | cons t ts ih =>
    intro st h
    rw [List.foldl_cons]
    exact ih _ (pushToken_sum_length seg_size d_model embedding_table vocab_rows st t h)

/-- One push keeps the token buffer strictly shorter than `segment_size` and
tracks its length modulo `segment_size`. -/
lemma pushToken_buffer_mod (seg_size d_model : Nat)
    (embedding_table : Nat → Nat → ℚ) (vocab_rows : Nat) (hpos : 0 < seg_size)
    (st : LoopState) (t : Nat) (h : st.token_buffer.length < seg_size) :
    (pushToken seg_size d_model embedding_table vocab_rows st t).token_buffer.length
        = (st.token_buffer.length + 1) % seg_size
    ∧ (pushToken seg_size d_model embedding_table vocab_rows st t).token_buffer.length
        < seg_size := by
  have hlen : (st.token_buffer ++ [t]).length = st.token_buffer.length + 1 := by
    simp
  unfold pushToken
  by_cases hle : seg_size ≤ (st.token_buffer ++ [t]).length
  · rw [if_pos hle]
    rw [hlen] at hle
    have heq : seg_size = st.token_buffer.length + 1 := by omega
    refine ⟨?_, ?_⟩
    · show ((st.token_buffer ++ [t]).drop seg_size).length
        = (st.token_buffer.length + 1) % seg_size
      rw [List.length_drop, hlen, ← heq, Nat.sub_self, Nat.mod_self]
    · show ((st.token_buffer ++ [t]).drop seg_size).length < seg_size
      rw [List.length_drop, hlen]
      omega
  · rw [if_neg hle]
    rw [hlen] at hle
    refine ⟨?_, ?_⟩
    · show (st.token_buffer ++ [t]).length = (st.token_buffer.length + 1) % seg_size
      rw [hlen, Nat.mod_eq_of_lt (by omega)]
    · show (st.token_buffer ++ [t]).length < seg_size
      rw [hlen]
      omega

/-- Over the whole fold, the token buffer stays strictly shorter than
`segment_size` and its length equals the pushed-token count modulo
`segment_size`. -/
lemma foldl_buffer_mod (seg_size d_model : Nat)
    (embedding_table : Nat → Nat → ℚ) (vocab_rows : Nat) (hpos : 0 < seg_size) :
    ∀ (tokens : List Nat) (st : LoopState), st.token_buffer.length < seg_size →
      (tokens.foldl (pushToken seg_size d_model embedding_table vocab_rows)
          st).token_buffer.length
          = (st.token_buffer.length + tokens.length) % seg_size
      ∧ (tokens.foldl (pushToken seg_size d_model embedding_table vocab_rows)
          st).token_buffer.length < seg_size := by
  intro tokens
  induction tokens with
  | nil =>
    intro st h
    refine ⟨?_, h⟩
    simp [Nat.mod_eq_of_lt h]
  | cons t ts ih =>
    intro st h
    rw [List.foldl_cons]
    obtain ⟨h1, h2⟩ :=
      pushToken_buffer_mod seg_size d_model embedding_table vocab_rows hpos st t h
    obtain ⟨h3, h4⟩ :=
      ih (pushToken seg_size d_model embedding_table vocab_rows st t) h2
    refine ⟨?_, h4⟩
    rw [h3, h1, Nat.mod_add_mod, List.length_cons]
    congr 1
    omega

/-- The final `global_count` of the orchestrator equals the total token count
of the stream, for every segment size. -/
lemma runStream_count (seg_size d_model : Nat)
    (embedding_table : Nat → Nat → ℚ) (vocab_rows : Nat) (tokens : List Nat) :
    (runStream seg_size d_model embedding_table vocab_rows tokens).global_count
      = tokens.length := by
  have h := foldl_count_buffer seg_size d_model embedding_table vocab_rows tokens
    (initState d_model)
  have hinit1 : (initState d_model).global_count = 0 := rfl
  have hinit2 : (initState d_model).token_buffer.length = 0 := rfl
  rw [hinit1, hinit2] at h
  unfold runStream flushLeftover
  by_cases hb : (tokens.foldl (pushToken seg_size d_model embedding_table vocab_rows)
      (initState d_model)).token_buffer = []
  · rw [if_pos hb]
    have hz : (tokens.foldl (pushToken seg_size d_model embedding_table vocab_rows)
        (initState d_model)).token_buffer.length = 0 := by
      rw [hb]
      rfl
    omega
  · rw [if_neg hb]
    show (tokens.foldl (pushToken seg_size d_model embedding_table vocab_rows)
          (initState d_model)).global_count
        + (tokens.foldl (pushToken seg_size d_model embedding_table vocab_rows)
            (initState d_model)).token_buffer.length
      = tokens.length
    omega

/-- The final `global_sum` always has `d_model` entries. -/
lemma runStream_sum_length (seg_size d_model : Nat)
    (embedding_table : Nat → Nat → ℚ) (vocab_rows : Nat) (tokens : List Nat) :
    (runStream seg_size d_model embedding_table vocab_rows tokens).global_sum.length
      = d_model := by
  have h := foldl_sum_length seg_size d_model embedding_table vocab_rows tokens
    (initState d_model) (by simp [initState])
  unfold runStream flushLeftover
  by_cases hb : (tokens.foldl (pushToken seg_size d_model embedding_table vocab_rows)
      (initState d_model)).token_buffer = []
  · rw [if_pos hb]
    exact h
  · rw [if_neg hb]
    exact accumulate_length _ _ _ _

/-- The flattened CPU segment output has exactly `n * d_model` entries. -/
lemma process_segment_cpu_length (tokens : List Nat)
    (embedding_table : Nat → Nat → ℚ) (vocab_rows d_model : Nat) :
    (process_segment_cpu tokens embedding_table vocab_rows d_model).length
      = tokens.length * d_model := by
  unfold process_segment_cpu
  induction tokens with
  | nil => simp
  | cons a ts ih =>
    rw [List.flatMap_cons, List.length_append, ih]
    simp only [List.length_map, List.length_range, List.length_cons]
    ring

/-- C6: for every token stream, the orchestrator's final token count equals
the stream length, and the reported result is the running average
(accumulated sum divided by the total token count) when at least one token was
processed, and the explicit empty-result indicator (`none`, printing
"No tokens processed.") when the stream was empty — no division by zero is
ever performed. -/
theorem final_average_or_empty_indicator (seg_size d_model : Nat)
    (embedding_table : Nat → Nat → ℚ) (vocab_rows : Nat) (tokens : List Nat) :
    (runStream seg_size d_model embedding_table vocab_rows tokens).global_count
        = tokens.length
    ∧ mainResult seg_size d_model embedding_table vocab_rows tokens
        = if tokens.length = 0 then none
          else
            some ((runStream seg_size d_model embedding_table vocab_rows
                tokens).global_sum.map (fun x => x / (tokens.length : ℚ))) := by
  have hc := runStream_count seg_size d_model embedding_table vocab_rows tokens
  refine ⟨hc, ?_⟩
  unfold mainResult
  rw [hc]
  rcases Nat.eq_zero_or_pos tokens.length with h0 | h0
  · rw [h0]
    simp
  · rw [if_pos h0, if_neg (by omega)]

/-- C8: for every token stream whose length is a positive non-multiple of
`segment_size`, the streaming fold leaves a non-empty remainder of size
`tokens.length % segment_size < segment_size`; the final flush dispatches that
remainder through the identical `process_segment_cpu` pipeline and accumulates
its output and row count, the final count equals the full stream length, the
remainder's output has exactly `n_left * d_model` entries and the final sum
keeps its `d_model` shape — no shape error at any stage. -/
theorem short_final_segment_flushed (seg_size d_model : Nat)
    (embedding_table : Nat → Nat → ℚ) (vocab_rows : Nat) (tokens : List Nat)
    (hpos : 0 < seg_size) (hmod : ¬ tokens.length % seg_size = 0) :
    (tokens.foldl (pushToken seg_size d_model embedding_table vocab_rows)
        (initState d_model)).token_buffer.length = tokens.length % seg_size
    ∧ (tokens.foldl (pushToken seg_size d_model embedding_table vocab_rows)
        (initState d_model)).token_buffer ≠ []
    ∧ runStream seg_size d_model embedding_table vocab_rows tokens
        = { token_buffer :=
              (tokens.foldl (pushToken seg_size d_model embedding_table vocab_rows)
                (initState d_model)).token_buffer
            global_sum :=
              accumulate
                (tokens.foldl (pushToken seg_size d_model embedding_table vocab_rows)
                  (initState d_model)).global_sum
                (process_segment_cpu
                  (tokens.foldl (pushToken seg_size d_model embedding_table vocab_rows)
                    (initState d_model)).token_buffer
                  embedding_table vocab_rows d_model)
                (tokens.foldl (pushToken seg_size d_model embedding_table vocab_rows)
                  (initState d_model)).token_buffer.length
                d_model
            global_count :=
              (tokens.foldl (pushToken seg_size d_model embedding_table vocab_rows)
                (initState d_model)).global_count
                + (tokens.foldl (pushToken seg_size d_model embedding_table vocab_rows)
                    (initState d_model)).token_buffer.length }
    ∧ (runStream seg_size d_model embedding_table vocab_rows tokens).global_count
        = tokens.length
    ∧ (process_segment_cpu
          (tokens.foldl (pushToken seg_size d_model embedding_table vocab_rows)
            (initState d_model)).token_buffer embedding_table vocab_rows
          d_model).length
        = (tokens.foldl (pushToken seg_size d_model embedding_table vocab_rows)
            (initState d_model)).token_buffer.length * d_model
    ∧ (runStream seg_size d_model embedding_table vocab_rows
        tokens).global_sum.length = d_model := by
  obtain ⟨hm, hlt⟩ := foldl_buffer_mod seg_size d_model embedding_table vocab_rows
    hpos tokens (initState d_model) (by simpa [initState] using hpos)
  have hm0 : (initState d_model).token_buffer.length = 0 := rfl
  rw [hm0, Nat.zero_add] at hm
  have hne : (tokens.foldl (pushToken seg_size d_model embedding_table vocab_rows)
      (initState d_model)).token_buffer ≠ [] := by
    intro hnil
    rw [hnil] at hm
    exact hmod hm.symm
  refine ⟨hm, hne, ?_, runStream_count _ _ _ _ _, process_segment_cpu_length _ _ _ _,
    runStream_sum_length _ _ _ _ _⟩
  unfold runStream flushLeftover
  rw [if_neg hne]

/-- Concrete instantiation of `short_final_segment_flushed`: stream
`[0, 1, 2]` with `segment_size = 2`, `d_model = 1`, an all-ones table; the
remainder `[2]` of size `1 = 3 % 2` is flushed through the same pipeline. -/
theorem short_final_segment_flushed_witness :
    0 < 2 ∧ ¬ ([0, 1, 2] : List Nat).length % 2 = 0 ∧
      (([0, 1, 2] : List Nat).foldl (pushToken 2 1 (fun _ _ => (1 : ℚ)) 1)
          (initState 1)).token_buffer.length = ([0, 1, 2] : List Nat).length % 2
    ∧ (([0, 1, 2] : List Nat).foldl (pushToken 2 1 (fun _ _ => (1 : ℚ)) 1)
          (initState 1)).token_buffer ≠ []
    ∧ runStream 2 1 (fun _ _ => (1 : ℚ)) 1 [0, 1, 2]
        = { token_buffer :=
              (([0, 1, 2] : List Nat).foldl (pushToken 2 1 (fun _ _ => (1 : ℚ)) 1)
                (initState 1)).token_buffer
            global_sum :=
              accumulate
                (([0, 1, 2] : List Nat).foldl (pushToken 2 1 (fun _ _ => (1 : ℚ)) 1)
                  (initState 1)).global_sum
                (process_segment_cpu
                  (([0, 1, 2] : List Nat).foldl (pushToken 2 1 (fun _ _ => (1 : ℚ)) 1)
                    (initState 1)).token_buffer
                  (fun _ _ => (1 : ℚ)) 1 1)
                (([0, 1, 2] : List Nat).foldl (pushToken 2 1 (fun _ _ => (1 : ℚ)) 1)
                  (initState 1)).token_buffer.length
                1
            global_count :=
              (([0, 1, 2] : List Nat).foldl (pushToken 2 1 (fun _ _ => (1 : ℚ)) 1)
                (initState 1)).global_count
                + (([0, 1, 2] : List Nat).foldl (pushToken 2 1 (fun _ _ => (1 : ℚ)) 1)
                    (initState 1)).token_buffer.length }
    ∧ (runStream 2 1 (fun _ _ => (1 : ℚ)) 1 [0, 1, 2]).global_count
        = ([0, 1, 2] : List Nat).length
    ∧ (process_segment_cpu
          (([0, 1, 2] : List Nat).foldl (pushToken 2 1 (fun _ _ => (1 : ℚ)) 1)
            (initState 1)).token_buffer (fun _ _ => (1 : ℚ)) 1 1).length
        = (([0, 1, 2] : List Nat).foldl (pushToken 2 1 (fun _ _ => (1 : ℚ)) 1)
            (initState 1)).token_buffer.length * 1
    ∧ (runStream 2 1 (fun _ _ => (1 : ℚ)) 1 [0, 1, 2]).global_sum.length = 1 :=
  ⟨by decide, by decide,
    short_final_segment_flushed 2 1 (fun _ _ => (1 : ℚ)) 1 [0, 1, 2]
      (by decide) (by decide)⟩

/-- The rectification feature map is non-negative everywhere. -/
lemma sigmaMap_nonneg (x : ℚ) : 0 ≤ sigmaMap x := le_max_right x 0

/-- A concrete one-row segment used to instantiate the memory-stage
theorems. -/
def testSeg1 : Segment :=
  { n := 1, Q := fun _ _ => 1, K := fun _ _ => 1, V := fun _ _ => 2 }

/-- A second concrete one-row segment. -/
def testSeg2 : Segment :=
  { n := 1, Q := fun _ _ => 3, K := fun _ _ => 2, V := fun _ _ => 1 }

/-- C1: the memory-retrieval output for segment `k` is computed from the head
memory state as it stood after the first `k` segments' updates and before
segment `k`'s own update (read-before-write per segment); moreover a retrieval
from the all-zero initial memory (the state before the first segment's update,
as initialized by `InfiniAttentionGpu::new`) is the `ε`-floored trivial value:
a zero numerator over the `ε` floor, i.e. `0` at every position — no
contribution from data not yet seen. -/
theorem retrieval_reads_pre_update_state (sig : ℚ → ℚ) (d_key : Nat) (eps : ℚ)
    (st : HeadMemory) (segs : List Segment) (k : Nat) (seg : Segment)
    (hs : segs.get? k = some seg) :
    (outputsFrom sig d_key eps st segs).get? k
        = some (segmentOutput sig d_key eps
            (stateAfter sig d_key eps st (segs.take k)) seg)
    ∧ ∀ i j, segmentOutput sig d_key eps zeroHeadMemory seg i j = 0 := by
  constructor
  · induction segs generalizing k st with
    | nil => simp at hs
    | cons s rest ih =>
      cases k with
      | zero =>
        simp only [List.get?_cons_zero, Option.some.injEq] at hs
        subst hs
        rfl
      | succ k =>
        simp only [List.get?_cons_succ] at hs
        simp only [outputsFrom, List.get?_cons_succ, List.take_succ_cons, stateAfter]
        exact ih _ k hs
  · intro i j
    simp [segmentOutput, memoryRetrieval, zeroHeadMemory]

/-- Concrete instantiation of `retrieval_reads_pre_update_state`: two
segments, reading segment 1 against the state left by segment 0 only. -/
theorem retrieval_reads_pre_update_state_witness :
    ([testSeg1, testSeg2].get? 1 = some testSeg2)
    ∧ ((outputsFrom sigmaMap 1 1 zeroHeadMemory [testSeg1, testSeg2]).get? 1
        = some (segmentOutput sigmaMap 1 1
            (stateAfter sigmaMap 1 1 zeroHeadMemory
              ([testSeg1, testSeg2].take 1)) testSeg2)
      ∧ ∀ i j, segmentOutput sigmaMap 1 1 zeroHeadMemory testSeg2 i j = 0) :=
  ⟨rfl, retrieval_reads_pre_update_state sigmaMap 1 1 zeroHeadMemory
    [testSeg1, testSeg2] 1 testSeg2 rfl⟩

/-- C3: for every non-negative feature map, processing one more segment never
decreases any entry of the memory normalizer `z` (monotonic accumulation), and
the memory matrix `M` changes only by adding the segment's
`sig(K)ᵗ · V` contribution — an additive accumulation with no decay. -/
theorem memory_accumulates_monotonically (sig : ℚ → ℚ)
    (hsig : ∀ x, 0 ≤ sig x) (d_key : Nat) (eps : ℚ) (st : HeadMemory)
    (segs : List Segment) (k : Nat) (seg : Segment) (a j : Nat)
    (hs : segs.get? k = some seg) :
    (stateAfter sig d_key eps st (segs.take k)).z a
        ≤ (stateAfter sig d_key eps st (segs.take (k + 1))).z a
    ∧ (stateAfter sig d_key eps st (segs.take (k + 1))).M a j
        = (stateAfter sig d_key eps st (segs.take k)).M a j
          + ∑ i in Finset.range seg.n, sig (seg.K i a) * seg.V i j := by
  have htake : segs.take (k + 1) = segs.take k ++ [seg] := by
    rw [List.take_succ, ← List.get?_eq_getElem?, hs]
    rfl
  have happ : ∀ (l1 l2 : List Segment) (s0 : HeadMemory),
      stateAfter sig d_key eps s0 (l1 ++ l2)
        = stateAfter sig d_key eps (stateAfter sig d_key eps s0 l1) l2 := by
    intro l1
    induction l1 with
    | nil => intro l2 s0; rfl
    | cons x xs ih =>
      intro l2 s0
      simp only [List.cons_append, stateAfter]
      exact ih l2 _
  rw [htake, happ]
  constructor
  · show (stateAfter sig d_key eps st (segs.take k)).z a
      ≤ (memoryUpdate sig seg (stateAfter sig d_key eps st (segs.take k))).z a
    unfold memoryUpdate
    exact le_add_of_nonneg_right (Finset.sum_nonneg (fun i _ => hsig _))
  · rfl

/-- Concrete instantiation of `memory_accumulates_monotonically` at the
rectification feature map and a one-segment stream. -/
theorem memory_accumulates_monotonically_witness :
    (∀ x, 0 ≤ sigmaMap x) ∧ ([testSeg1].get? 0 = some testSeg1)
    ∧ ((stateAfter sigmaMap 1 1 zeroHeadMemory ([testSeg1].take 0)).z 0
          ≤ (stateAfter sigmaMap 1 1 zeroHeadMemory ([testSeg1].take (0 + 1))).z 0
      ∧ (stateAfter sigmaMap 1 1 zeroHeadMemory ([testSeg1].take (0 + 1))).M 0 0
          = (stateAfter sigmaMap 1 1 zeroHeadMemory ([testSeg1].take 0)).M 0 0
            + ∑ i in Finset.range testSeg1.n,
                sigmaMap (testSeg1.K i 0) * testSeg1.V i 0) :=
  ⟨sigmaMap_nonneg, rfl,
    memory_accumulates_monotonically sigmaMap sigmaMap_nonneg 1 1 zeroHeadMemory
      [testSeg1] 0 testSeg1 0 0 rfl⟩

end RMA


